import Mathlib

/-!
Shallow embedding of the content-scheduling feature of the
`leader-amplifier-ai` repository: the `scheduled_content` remote table, the
data hooks `useScheduledContent` (two variants) and `useContentSchedules`,
and the date/time handling of the schedule dialogs
(`ScheduleContentDialog`, `ScheduleDisplay`, `ContentScheduleModal`,
`ScheduledPostsTab`).

Modelling conventions:
* Timestamps are `Int`, counting minutes since the epoch (all code paths
  round seconds/milliseconds to zero via `setHours(h, m, 0, 0)` or the
  `datetime-local` input, and `toISOString().slice(0, 16)` truncates to
  minute precision).
* A JavaScript `Date` parsed from a zone-less string (such as the value of
  a `datetime-local` input, or `toISOString().slice(0, 16)`) denotes the
  wall-clock time in the runtime's local timezone; the corresponding UTC
  instant is `wall - tzOff`, where `tzOff` is the runtime's offset from
  UTC in minutes (330 for IST, 0 for UTC).  Strings produced by
  `toISOString()` carry a `Z` suffix and denote the instant itself,
  independent of `tzOff`.
* Remote calls are modelled by a `RemoteResult` value handed to the pure
  state-transition function of each hook operation: `ok` carries the data
  the query/mutation returned, `err` carries the thrown error message.
* JavaScript falsy checks on optional strings (`!schedule.date`,
  `status || 'pending'`) are modelled with `Option`, where `none` stands
  for `undefined`/`null`/the empty string.
-/

/-- Row of the remote `scheduled_content` table, as in the
`ScheduledContent` interface of `useScheduledContent.ts` and the SQL
migration (`id` auto-increment primary key, `created_at` defaulted to
`now()`, nullable `user_id`, `content_id`, `status`, `scheduled_at`,
`posted_at`). -/
structure ScheduledContent where
  id : Nat
  created_at : Int
  user_id : Option Int
  content_id : Option Int
  status : Option String
  scheduled_at : Option Int
  posted_at : Option Int
deriving DecidableEq, Repr

/-- Payload of an insert into `scheduled_content`
(the `ScheduledContentInsert` interface: every field optional). -/
structure ScheduledContentInsert where
  user_id : Option Int := none
  content_id : Option Int := none
  status : Option String := none
  scheduled_at : Option Int := none
  posted_at : Option Int := none
deriving DecidableEq, Repr

/-- Payload of an `update` on `scheduled_content`
(the `ScheduledContentUpdate` interface): a field that is `none` is
absent from the patch and leaves the column unchanged.  The code only
ever supplies non-null values for the fields it patches. -/
structure ScheduledContentUpdate where
  user_id : Option Int := none
  content_id : Option Int := none
  status : Option String := none
  scheduled_at : Option Int := none
  posted_at : Option Int := none
deriving DecidableEq, Repr

/-- State of the remote table: its rows, the next identity value, and the
database clock used for the `created_at` default. -/
structure TableState where
  rows : List ScheduledContent
  nextId : Nat
  dbNow : Int
deriving DecidableEq, Repr

/-- Row produced by inserting `ins`: `id` from the identity sequence,
`created_at` from `now()`, the remaining columns from the payload. -/
def rowOfInsert (st : TableState) (ins : ScheduledContentInsert) : ScheduledContent :=
  { id := st.nextId, created_at := st.dbNow, user_id := ins.user_id,
    content_id := ins.content_id, status := ins.status,
    scheduled_at := ins.scheduled_at, posted_at := ins.posted_at }

/-- Insert a single row, returning the new table state and the row
(`.select().single()` returns the inserted row). -/
def insertRow (st : TableState) (ins : ScheduledContentInsert) :
    TableState × ScheduledContent :=
  let row := rowOfInsert st ins
  ({ st with rows := st.rows ++ [row], nextId := st.nextId + 1 }, row)

/-- Insert a list of rows in order, returning the new table state and the
inserted rows (`.insert([...]).select()`). -/
def insertRows (st : TableState) (items : List ScheduledContentInsert) :
    TableState × List ScheduledContent :=
  match items with
  | [] => (st, [])
  | it :: rest =>
    ((insertRows (insertRow st it).1 rest).1,
     (insertRow st it).2 :: (insertRows (insertRow st it).1 rest).2)

/-- Patch semantics of one column of an `update`: a present value
overwrites, an absent one keeps the old column. -/
def patchField (new old : Option α) : Option α :=
  match new with
  | some v => some v
  | none => old

/-- Apply an update payload to one row (`id` and `created_at` are not part
of the payload type and never change). -/
def applyUpdate (u : ScheduledContentUpdate) (r : ScheduledContent) : ScheduledContent :=
  { id := r.id, created_at := r.created_at,
    user_id := patchField u.user_id r.user_id,
    content_id := patchField u.content_id r.content_id,
    status := patchField u.status r.status,
    scheduled_at := patchField u.scheduled_at r.scheduled_at,
    posted_at := patchField u.posted_at r.posted_at }

/-- Remote `.update(u).eq('id', id)`: patch every row whose id matches,
leave all others in place. -/
def updateRows (tbl : List ScheduledContent) (id : Nat) (u : ScheduledContentUpdate) :
    List ScheduledContent :=
  tbl.map (fun r => if r.id = id then applyUpdate u r else r)

/-- Remote `.delete().eq('id', id)`: remove every row whose id matches. -/
def deleteRows (tbl : List ScheduledContent) (id : Nat) : List ScheduledContent :=
  tbl.filter (fun r => r.id != id)

/-- Outcome of a remote call as seen by the hook's try/catch. -/
inductive RemoteResult (α : Type) where
  | ok (data : α)
  | err (msg : String)
deriving DecidableEq, Repr

/-- A `toast({...})` notification; `destructive` marks the error variant. -/
structure Toast where
  title : String
  description : String
  destructive : Bool
deriving DecidableEq, Repr

/-- Error notification with the caught message. -/
def errToast (msg : String) : Toast :=
  { title := "Error", description := msg, destructive := true }

/-- Success notification. -/
def okToast (msg : String) : Toast :=
  { title := "Success", description := msg, destructive := false }

/-- Number of user-visible error notifications in a toast list. -/
def destructiveCount (ts : List Toast) : Nat :=
  (ts.filter (fun t => t.destructive)).length

/-- JavaScript `status || 'pending'`: `undefined`, `null` and the empty
string fall back to `"pending"`; any other string is kept. -/
def statusOrPending (s : Option String) : String :=
  match s with
  | none => "pending"
  | some st => if st = "" then "pending" else st

/-- Ascending order on nullable timestamps used by
`.order('scheduled_at', { ascending: true })`; the database places nulls
last for an ascending order. -/
def optIntLe : Option Int → Option Int → Prop
  | none, none => True
  | some _, none => True
  | none, some _ => False
  | some a, some b => a ≤ b

instance optIntLe.instDecidable : ∀ x y, Decidable (optIntLe x y)
  | none, none => inferInstanceAs (Decidable True)
  | some _, none => inferInstanceAs (Decidable True)
  | none, some _ => inferInstanceAs (Decidable False)
  | some a, some b => inferInstanceAs (Decidable (a ≤ b))

/-- Rows ordered ascending by `scheduled_at`. -/
def schedAtLe (a b : ScheduledContent) : Prop :=
  optIntLe a.scheduled_at b.scheduled_at

instance schedAtLe.instDecidable : DecidableRel schedAtLe :=
  fun a b => optIntLe.instDecidable a.scheduled_at b.scheduled_at

instance schedAtLe.instTotal : IsTotal ScheduledContent schedAtLe where
  total a b := by
    unfold schedAtLe
    rcases a.scheduled_at with _ | x <;> rcases b.scheduled_at with _ | y <;>
      simp [optIntLe] <;> omega

instance schedAtLe.instTrans : IsTrans ScheduledContent schedAtLe where
  trans a b c := by
    unfold schedAtLe
    rcases a.scheduled_at with _ | x <;> rcases b.scheduled_at with _ | y <;>
      rcases c.scheduled_at with _ | z <;> simp [optIntLe] <;> omega

/-- Rows ordered descending by `created_at`, as in
`.order('created_at', { ascending: false })` (the column is not null). -/
def createdAtGe (a b : ScheduledContent) : Prop :=
  b.created_at ≤ a.created_at

instance createdAtGe.instDecidable : DecidableRel createdAtGe :=
  fun a b => inferInstanceAs (Decidable (b.created_at ≤ a.created_at))

instance createdAtGe.instTotal : IsTotal ScheduledContent createdAtGe where
  total a b := Int.le_total b.created_at a.created_at

instance createdAtGe.instTrans : IsTrans ScheduledContent createdAtGe where
  trans _ _ _ h1 h2 := le_trans h2 h1

namespace UseScheduledContent

/-- Query of the first `fetchScheduledContent`:
`select('*').order('scheduled_at', { ascending: true })` over the whole
table, with no user filter. -/
def fetchQuery (tbl : List ScheduledContent) : List ScheduledContent :=
  List.insertionSort schedAtLe tbl

/-- Local-state transition of `fetchScheduledContent` (first hook
variant): on success the fetched list replaces the mirrored list; the
catch branch keeps it and raises one destructive toast. -/
def fetchScheduledContentOp (prev : List ScheduledContent)
    (res : RemoteResult (List ScheduledContent)) :
    List ScheduledContent × List Toast :=
  match res with
  | .ok data => (data, [])
  | .err msg => (prev, [errToast msg])

/-- Insert payload built by `scheduleContent`: the caller's item with
`status: contentData.status || 'pending'`. -/
def scheduleContentPayload (contentData : ScheduledContentInsert) : ScheduledContentInsert :=
  { contentData with status := some (statusOrPending contentData.status) }

/-- Insert payload built by `scheduleMultipleContent`: each item with
`status: item.status || 'pending'`. -/
def scheduleMultiplePayload (items : List ScheduledContentInsert) :
    List ScheduledContentInsert :=
  items.map (fun item => { item with status := some (statusOrPending item.status) })

/-- Local-state transition of `scheduleContent`: on success the returned
row is appended to the mirrored list; the catch branch keeps the list and
raises one destructive toast. -/
def scheduleContentOp (prev : List ScheduledContent)
    (res : RemoteResult ScheduledContent) :
    List ScheduledContent × List Toast :=
  match res with
  | .ok data => (prev ++ [data], [])
  | .err msg => (prev, [errToast msg])

/-- Local-state transition of `scheduleMultipleContent`: on success the
returned rows are appended; the catch branch keeps the list and raises one
destructive toast with a fixed message. -/
def scheduleMultipleContentOp (prev : List ScheduledContent)
    (res : RemoteResult (List ScheduledContent)) :
    List ScheduledContent × List Toast :=
  match res with
  | .ok data => (prev ++ data, [])
  | .err _ =>
    (prev, [errToast "Something went wrong while scheduling. Please try again."])

/-- Local-state transition of `updateScheduledContent`: on success the row
with the updated id is replaced by the returned row and a success toast is
shown; the catch branch keeps the list and raises one destructive toast. -/
def updateScheduledContentOp (prev : List ScheduledContent) (id : Nat)
    (res : RemoteResult ScheduledContent) :
    List ScheduledContent × List Toast :=
  match res with
  | .ok data =>
    (prev.map (fun item => if item.id = id then data else item),
     [okToast "Scheduled content updated successfully"])
  | .err msg => (prev, [errToast msg])

/-- Local-state transition of `deleteScheduledContent`: on success the row
with the deleted id is filtered out and a success toast is shown; the
catch branch keeps the list and raises one destructive toast. -/
def deleteScheduledContentOp (prev : List ScheduledContent) (id : Nat)
    (res : RemoteResult Unit) :
    List ScheduledContent × List Toast :=
  match res with
  | .ok _ =>
    (prev.filter (fun item => item.id != id),
     [okToast "Scheduled content deleted successfully"])
  | .err msg => (prev, [errToast msg])

end UseScheduledContent

namespace UseScheduledContentV2

/-- Query of the second `fetchScheduledContent` variant:
`select('*').order('created_at', { ascending: false })` over the whole
table, with no user filter. -/
def fetchQuery (tbl : List ScheduledContent) : List ScheduledContent :=
  List.insertionSort createdAtGe tbl

/-- Local-state transition of the second `fetchScheduledContent`. -/
def fetchScheduledContentOp (prev : List ScheduledContent)
    (res : RemoteResult (List ScheduledContent)) :
    List ScheduledContent × List Toast :=
  match res with
  | .ok data => (data, [])
  | .err msg => (prev, [errToast msg])

/-- Insert payload of the second variant's `scheduleContent(contentIds,
userId)`: one pending item per content id. -/
def scheduleContentPayload (contentIds : List Int) (userId : Int) :
    List ScheduledContentInsert :=
  contentIds.map (fun cid =>
    { user_id := some userId, content_id := some cid, status := some "pending" })

/-- Local-state transition of the second variant's `scheduleContent`: on
success the returned rows are prepended and a success toast shown; the
catch branch keeps the list and raises one destructive toast. -/
def scheduleContentOp (prev : List ScheduledContent)
    (res : RemoteResult (List ScheduledContent)) :
    List ScheduledContent × List Toast :=
  match res with
  | .ok data =>
    (data ++ prev, [okToast "Selected content scheduled successfully for posting."])
  | .err msg => (prev, [errToast msg])

end UseScheduledContentV2

namespace ScheduleContentDialog

/-- Selected content item (the `Content` interface of the dialog). -/
structure Content where
  id : Int
  content : Option String
  platform : Option String
  type : Option String
deriving DecidableEq, Repr

/-- Per-item form state (the `ContentSchedule` interface): `day` is the
local calendar day of the picked `Date` (JS `undefined` is `none`),
`time` the parsed minutes of the `HH:mm` string (`none` for the empty
string), `platform` the selected platform (empty string when unset). -/
structure ContentSchedule where
  contentId : Int
  day : Option Int
  time : Option Int
  platform : String
deriving DecidableEq, Repr

/-- Current user record as used by the dialog. -/
structure UserRec where
  id : Int
deriving DecidableEq, Repr

/-- Wall-clock minutes obtained by `new Date(schedule.date)` followed by
`setHours(hours, minutes, 0, 0)`: the picked day with the picked
time of day. -/
def combineDayTime (day time : Int) : Int :=
  day * 1440 + time

/-- The `handleSubmit` handler of `ScheduleContentDialog`: it returns
before any remote call when some item is missing its date, time or
platform, or when no user is logged in; otherwise it builds one insert
payload per item (combining date and time, `toISOString()` converting the
local wall time to the UTC instant) and calls `scheduleMultipleContent`.
The result is `none` when no remote call is made, and `some payload` for
the payload handed to the remote insert.  No comparison with the current
time is performed here. -/
def handleSubmit (schedules : List ContentSchedule) (currentUser : Option UserRec)
    (tzOff : Int) : Option (List ScheduledContentInsert) :=
  if schedules.any (fun s => s.day = none || s.time = none || s.platform = "") then
    none
  else
    match currentUser with
    | none => none
    | some u =>
      some (schedules.map (fun s =>
        { user_id := some u.id, content_id := some s.contentId,
          scheduled_at := some (combineDayTime (s.day.getD 0) (s.time.getD 0) - tzOff),
          status := some "pending" }))

end ScheduleContentDialog

namespace ScheduleDisplay

/-- The `scheduled_content` record held by `ScheduleDisplay`
(`id, scheduled_at, status` selected for the content). -/
structure ScheduledContentRecord where
  id : Nat
  scheduled_at : Int
  status : String
deriving DecidableEq, Repr

/-- A remote write issued by the inline editor: either an update of an
existing schedule row or an insert of a new one. -/
inductive RemoteWrite where
  | update (id : Nat) (u : ScheduledContentUpdate)
  | insert (ins : ScheduledContentInsert)
deriving DecidableEq, Repr

/-- The `convertUTCToIST` helper: add 5 hours 30 minutes to the UTC
instant and print the result with `toISOString().slice(0, 16)`.  At
minute precision the produced zone-less string denotes the wall-clock
value `t + 330`. -/
def convertUTCToIST (t : Int) : Int :=
  t + 330

/-- The `convertISTToUTC` helper: `new Date(istString)` parses the
zone-less string in the runtime's local timezone (instant
`wall - tzOff`), and 5 hours 30 minutes are subtracted from it. -/
def convertISTToUTC (wall tzOff : Int) : Int :=
  wall - tzOff - 330

/-- Round trip of a stored UTC timestamp through display and storage:
`convertISTToUTC (convertUTCToIST t)`. -/
def istRoundTrip (t tzOff : Int) : Int :=
  convertISTToUTC (convertUTCToIST t) tzOff

/-- The `validateDateTime` helper: `new Date(dateTimeString) > new Date()`
with the zone-less input parsed in the runtime's local timezone. -/
def validateDateTime (wall tzOff now : Int) : Bool :=
  now < wall - tzOff

/-- The `handleUpdateSchedule` handler of `ScheduleDisplay`:
a missing datetime or a failed `validateDateTime` sets an inline
validation error and returns before any remote call; otherwise the value
is converted with `convertISTToUTC` and either the existing row is
updated (`scheduled_at` plus `status: 'pending'`) or a new row is
inserted with the demo user id 1. -/
def handleUpdateSchedule (scheduleDateTime : Option Int)
    (scheduledContent : Option ScheduledContentRecord) (contentId : Int)
    (tzOff now : Int) : Option RemoteWrite :=
  match scheduleDateTime with
  | none => none
  | some wall =>
    if validateDateTime wall tzOff now then
      let utcDateTime := convertISTToUTC wall tzOff
      match scheduledContent with
      | some r =>
        some (.update r.id { scheduled_at := some utcDateTime, status := some "pending" })
      | none =>
        some (.insert { content_id := some contentId,
                        scheduled_at := some utcDateTime,
                        status := some "pending", user_id := some 1 })
    else none

end ScheduleDisplay

namespace ContentScheduleModal

/-- Editing state of the content-schedule modal (the `EditingSchedule`
interface): the edited row id, the picked local calendar day (`none` for
`undefined`) and the time of day in minutes. -/
structure EditingSchedule where
  id : Nat
  day : Option Int
  time : Int
deriving DecidableEq, Repr

/-- The `handleSaveSchedule` handler of `ContentScheduleModal`: a missing
editing state or date raises an error toast and returns; the combined
date and time (an instant via `toISOString()`, wall time minus the
runtime offset) is rejected when it is not strictly after the current
time; otherwise `updateSchedule(id, iso)` is called.  The result is the
`(scheduleId, newScheduledAt)` pair of that call, `none` when no remote
call is made. -/
def handleSaveSchedule (editingSchedule : Option EditingSchedule)
    (tzOff now : Int) : Option (Nat × Int) :=
  match editingSchedule with
  | none => none
  | some e =>
    match e.day with
    | none => none
    | some d =>
      let scheduledDateTime := ScheduleContentDialog.combineDayTime d e.time - tzOff
      if scheduledDateTime ≤ now then none
      else some (e.id, scheduledDateTime)

end ContentScheduleModal

namespace ScheduledPostsTab

/-- The `handleSaveSchedule` handler of the scheduled-posts edit dialog:
a missing editing id or empty datetime raises an error toast and returns;
the selected datetime (parsed in the runtime's local timezone) is
rejected unless it is strictly after the current time; otherwise
`updateScheduledContent(editingPost, { scheduled_at })` is called with
the UTC instant.  The result is the `(rowId, update)` pair of that call,
`none` when no remote call is made. -/
def handleSaveSchedule (editingPost : Option Nat) (editDateTime : Option Int)
    (tzOff now : Int) : Option (Nat × ScheduledContentUpdate) :=
  match editingPost, editDateTime with
  | some pid, some wall =>
    let selectedDate := wall - tzOff
    if selectedDate ≤ now then none
    else some (pid, { scheduled_at := some selectedDate })
  | _, _ => none

end ScheduledPostsTab

namespace UseContentSchedules

/-- Inner schedule record of `ContentScheduleInfo.schedules`. -/
structure ScheduleEntry where
  id : Nat
  scheduled_at : Int
  status : String
  posted_at : Option Int
deriving DecidableEq, Repr

/-- The `ContentScheduleInfo` interface. -/
structure ContentScheduleInfo where
  contentId : Int
  schedules : List ScheduleEntry
  hasSchedule : Bool
  nextSchedule : Option Int
deriving DecidableEq, Repr

/-- The `Map<number, ContentScheduleInfo>` held by the hook, as an
association list in insertion order. -/
abbrev ScheduleMap := List (Int × ContentScheduleInfo)

/-- JavaScript `Map.prototype.get`. -/
def mapGet (m : ScheduleMap) (k : Int) : Option ContentScheduleInfo :=
  (m.find? (fun p => p.1 = k)).map (fun p => p.2)

/-- JavaScript `Map.prototype.set`: replace the value at an existing key
in place, otherwise append the binding. -/
def mapSet (m : ScheduleMap) (k : Int) (v : ContentScheduleInfo) : ScheduleMap :=
  if m.any (fun p => p.1 = k) then
    m.map (fun p => if p.1 = k then (k, v) else p)
  else
    m ++ [(k, v)]

/-- Entry with no schedules, as initialised for every requested content id
and as returned by `getScheduleInfo` for an absent id. -/
def emptyInfo (cid : Int) : ContentScheduleInfo :=
  { contentId := cid, schedules := [], hasSchedule := false, nextSchedule := none }

/-- Map initialisation of `fetchContentSchedules`: one empty entry per
requested content id. -/
def initialMap (contentIds : List Int) : ScheduleMap :=
  contentIds.foldl (fun m cid => mapSet m cid (emptyInfo cid)) []

/-- Row filter of the `fetchContentSchedules` query:
`.in('content_id', contentIds)` and `.gte('scheduled_at', now)` (a null
`content_id` or `scheduled_at` never satisfies the SQL comparison). -/
def queryPred (contentIds : List Int) (now : Int) (r : ScheduledContent) : Bool :=
  (match r.content_id with
   | some cid => contentIds.contains cid
   | none => false) &&
  (match r.scheduled_at with
   | some t => now ≤ t
   | none => false)

/-- The `fetchContentSchedules` query: filtered rows ordered ascending by
`scheduled_at`. -/
def fetchQuery (tbl : List ScheduledContent) (contentIds : List Int) (now : Int) :
    List ScheduledContent :=
  List.insertionSort schedAtLe (tbl.filter (queryPred contentIds now))

/-- Schedule entry pushed for a fetched row (`status || 'pending'`). -/
def entryOfRow (r : ScheduledContent) (t : Int) : ScheduleEntry :=
  { id := r.id, scheduled_at := t, status := statusOrPending r.status,
    posted_at := r.posted_at }

/-- The `data?.forEach(schedule => ...)` body: look the row's content id
up in the map (a missing or null id is skipped), push the schedule entry,
mark `hasSchedule` and set `nextSchedule` to the first pushed value.
Rows reaching this code come from the query, whose filters guarantee
`content_id` and `scheduled_at` are non-null. -/
def addScheduleRow (m : ScheduleMap) (r : ScheduledContent) : ScheduleMap :=
  match r.content_id, r.scheduled_at with
  | some cid, some t =>
    match mapGet m cid with
    | none => m
    | some info =>
      mapSet m cid
        { info with
          schedules := info.schedules ++ [entryOfRow r t],
          hasSchedule := true,
          nextSchedule :=
            match info.nextSchedule with
            | none => some t
            | some x => some x }
  | _, _ => m

/-- Local-state transition of `fetchContentSchedules`: an empty id list
returns before any remote call; on success a freshly built map replaces
the state; the catch branch keeps the map and raises one destructive
toast. -/
def fetchContentSchedulesOp (prev : ScheduleMap) (contentIds : List Int)
    (res : RemoteResult (List ScheduledContent)) : ScheduleMap × List Toast :=
  if contentIds = [] then (prev, [])
  else
    match res with
    | .ok data => (data.foldl addScheduleRow (initialMap contentIds), [])
    | .err msg => (prev, [errToast msg])

/-- The `getScheduleInfo` accessor: the map entry, or an empty record for
an absent id. -/
def getScheduleInfo (m : ScheduleMap) (contentId : Int) : ContentScheduleInfo :=
  (mapGet m contentId).getD (emptyInfo contentId)

/-- Ascending order on schedule entries, as sorted by the comparator
`new Date(a.scheduled_at).getTime() - new Date(b.scheduled_at).getTime()`. -/
def entryLe (a b : ScheduleEntry) : Prop :=
  a.scheduled_at ≤ b.scheduled_at

instance entryLe.instDecidable : DecidableRel entryLe :=
  fun a b => inferInstanceAs (Decidable (a.scheduled_at ≤ b.scheduled_at))

instance entryLe.instTotal : IsTotal ScheduleEntry entryLe where
  total a b := Int.le_total a.scheduled_at b.scheduled_at

instance entryLe.instTrans : IsTrans ScheduleEntry entryLe where
  trans _ _ _ h1 h2 := le_trans h1 h2

/-- Success branch of `updateSchedule`: the updated row `data` comes back
from the remote update; the entry at its content id (if present) gets the
matching schedule's `scheduled_at` replaced, the list re-sorted, and
`nextSchedule` recomputed from the new head.  A null `content_id` misses
the map and leaves the state unchanged. -/
def updateScheduleLocal (m : ScheduleMap) (scheduleId : Nat) (newScheduledAt : Int)
    (data : ScheduledContent) : ScheduleMap :=
  match data.content_id with
  | none => m
  | some cid =>
    match mapGet m cid with
    | none => m
    | some info =>
      let updatedSchedules := List.insertionSort entryLe
        (info.schedules.map (fun s =>
          if s.id = scheduleId then { s with scheduled_at := newScheduledAt } else s))
      mapSet m cid
        { info with
          schedules := updatedSchedules,
          nextSchedule := updatedSchedules.head?.map (fun s => s.scheduled_at) }

/-- Local-state transition of `updateSchedule`: success updates the entry
and shows a success toast; the catch branch keeps the map and raises one
destructive toast. -/
def updateScheduleOp (prev : ScheduleMap) (scheduleId : Nat) (newScheduledAt : Int)
    (res : RemoteResult ScheduledContent) : ScheduleMap × List Toast :=
  match res with
  | .ok data =>
    (updateScheduleLocal prev scheduleId newScheduledAt data,
     [okToast "Schedule updated successfully"])
  | .err msg => (prev, [errToast msg])

/-- Success branch of `deleteSchedule`: the entry at the given content id
(if present) drops the schedule with the deleted id, and `hasSchedule`
and `nextSchedule` are recomputed. -/
def deleteScheduleLocal (m : ScheduleMap) (scheduleId : Nat) (contentId : Int) :
    ScheduleMap :=
  match mapGet m contentId with
  | none => m
  | some info =>
    let updatedSchedules := info.schedules.filter (fun s => s.id != scheduleId)
    mapSet m contentId
      { info with
        schedules := updatedSchedules,
        hasSchedule := !updatedSchedules.isEmpty,
        nextSchedule := updatedSchedules.head?.map (fun s => s.scheduled_at) }

/-- Local-state transition of `deleteSchedule`: success updates the entry
and shows a success toast; the catch branch keeps the map and raises one
destructive toast. -/
def deleteScheduleOp (prev : ScheduleMap) (scheduleId : Nat) (contentId : Int)
    (res : RemoteResult Unit) : ScheduleMap × List Toast :=
  match res with
  | .ok _ =>
    (deleteScheduleLocal prev scheduleId contentId,
     [okToast "Schedule deleted successfully"])
  | .err msg => (prev, [errToast msg])

/-- Invariant of one map entry: `hasSchedule` holds exactly when the list
is non-empty, the list is sorted ascending by `scheduled_at`, and
`nextSchedule` is the `scheduled_at` of the list head (hence, by
sortedness, of the earliest schedule), `none` when the list is empty. -/
def infoInv (info : ContentScheduleInfo) : Prop :=
  (info.hasSchedule = true ↔ info.schedules ≠ []) ∧
  List.Sorted entryLe info.schedules ∧
  info.nextSchedule = info.schedules.head?.map (fun s => s.scheduled_at)

/-- Invariant of the whole map: every entry satisfies `infoInv`. -/
def mapInv (m : ScheduleMap) : Prop :=
  ∀ p ∈ m, infoInv p.2

instance infoInv.instDecidable (info : ContentScheduleInfo) : Decidable (infoInv info) := by
  unfold infoInv
  infer_instance

instance mapInv.instDecidable (m : ScheduleMap) : Decidable (mapInv m) := by
  unfold mapInv
  infer_instance

end UseContentSchedules

/-- Timestamp carried by a remote write of the inline editor. -/
def ScheduleDisplay.scheduledAtOfWrite : ScheduleDisplay.RemoteWrite → Option Int
  | .update _ u => u.scheduled_at
  | .insert ins => ins.scheduled_at

/-- Strengthened invariant used while folding the sorted query result into
the schedule map: every schedule already in an entry is no later than any
row still to be processed. -/
def UseContentSchedules.pendingBound (rest : List ScheduledContent)
    (info : UseContentSchedules.ContentScheduleInfo) : Prop :=
  ∀ e ∈ info.schedules, ∀ r ∈ rest, ∀ t, r.scheduled_at = some t →
    e.scheduled_at ≤ t

/-- Inserting one row appends it to the table and copies the payload's
`status` and `content_id` into the returned row. -/
theorem insertRow_fields (st : TableState) (it : ScheduledContentInsert) :
    (insertRow st it).1.rows = st.rows ++ [(insertRow st it).2] ∧
    (insertRow st it).2.status = it.status ∧
    (insertRow st it).2.content_id = it.content_id :=
  ⟨rfl, rfl, rfl⟩

/-- Rows and returned data of `insertRows`: the table grows by exactly the
inserted rows, one per payload item, and each row copies its item's
`status` and `content_id`. -/
theorem insertRows_fields (st : TableState) (items : List ScheduledContentInsert) :
    (insertRows st items).1.rows = st.rows ++ (insertRows st items).2 ∧
    (insertRows st items).2.length = items.length ∧
    (insertRows st items).2.map (fun r => r.status) = items.map (fun it => it.status) ∧
    (insertRows st items).2.map (fun r => r.content_id)
      = items.map (fun it => it.content_id) := by
  induction items generalizing st with
  | nil => simp [insertRows]
  | cons it rest ih =>
    obtain ⟨h1, h2, h3, h4⟩ := ih (insertRow st it).1
    obtain ⟨g1, g2, g3⟩ := insertRow_fields st it
    refine ⟨?_, ?_, ?_, ?_⟩ <;>
      simp [insertRows, h1, h2, h3, h4, g1, g2, g3]

/-- C8 counterexample: in a runtime whose local timezone is IST (offset
330 minutes, the timezone the UI is designed around), the round trip
`convertISTToUTC (convertUTCToIST t)` maps the stored UTC instant `t = 0`
to `-330`, not back to `t`: `convertISTToUTC` parses the zone-less
display string in the runtime's local timezone, so the pair is not an
inverse pair in general. -/
theorem istRoundTrip_not_identity_in_ist_runtime :
    ScheduleDisplay.istRoundTrip 0 330 = -330 ∧ (-330 : Int) ≠ 0 := by
  decide

/-- C8 (amended): the round trip of a minute-precision UTC timestamp
through `convertUTCToIST` and `convertISTToUTC` yields the original value
shifted down by the runtime's local timezone offset; it is the identity
exactly in a UTC runtime (offset 0). -/
theorem istRoundTrip_shifts_by_runtime_offset (t tzOff : Int) :
    ScheduleDisplay.istRoundTrip t tzOff = t - tzOff ∧
    ScheduleDisplay.istRoundTrip t 0 = t := by
  constructor <;>
    simp [ScheduleDisplay.istRoundTrip, ScheduleDisplay.convertISTToUTC,
      ScheduleDisplay.convertUTCToIST] <;>
    omega

/-- C2 counterexample: invoking `scheduleContent` with an item whose
`status` is `"posted"` inserts a row whose status is `"posted"`, not
`"pending"`: the code only defaults a falsy status
(`contentData.status || 'pending'`). -/
theorem scheduleContent_status_not_always_pending :
    ((insertRow ⟨[], 1, 0⟩ (UseScheduledContent.scheduleContentPayload
        { status := some "posted" })).1.rows.map (fun r => r.status))
      = [some "posted"] ∧
    (some "posted" : Option String) ≠ some "pending" := by
  decide

/-- C2 (amended): every row inserted by `scheduleContent` or
`scheduleMultipleContent` carries the item's own status when that is a
non-empty string, and `"pending"` when the item's status is absent, null
or empty; in particular an item without a status (or with status
`"pending"`, as every call site in the repository passes) always yields a
`"pending"` row. -/
theorem create_status_defaults_to_pending (st st2 : TableState)
    (item : ScheduledContentInsert) (items : List ScheduledContentInsert) :
    ((insertRow st (UseScheduledContent.scheduleContentPayload item)).2).status
      = some (statusOrPending item.status) ∧
    ((insertRows st2 (UseScheduledContent.scheduleMultiplePayload items)).2.map
        (fun r => r.status))
      = items.map (fun it => some (statusOrPending it.status)) ∧
    (item.status = none →
      ((insertRow st (UseScheduledContent.scheduleContentPayload item)).2).status
        = some "pending") ∧
    (item.status = some "pending" →
      ((insertRow st (UseScheduledContent.scheduleContentPayload item)).2).status
        = some "pending") := by
  obtain ⟨-, -, h3, -⟩ :=
    insertRows_fields st2 (UseScheduledContent.scheduleMultiplePayload items)
  refine ⟨rfl, ?_, ?_, ?_⟩
  · rw [h3]
    simp [UseScheduledContent.scheduleMultiplePayload]
  · intro h
    simp [insertRow, rowOfInsert, UseScheduledContent.scheduleContentPayload, h,
      statusOrPending]
  · intro h
    simp [insertRow, rowOfInsert, UseScheduledContent.scheduleContentPayload, h,
      statusOrPending]

/-- C2 witness: a concrete invocation with no status yields a `"pending"`
row. -/
theorem create_status_defaults_to_pending_witness :
    ({ content_id := some 3 } : ScheduledContentInsert).status = none ∧
    ((insertRow ⟨[], 1, 0⟩ (UseScheduledContent.scheduleContentPayload
        { content_id := some 3 })).2).status = some "pending" :=
  ⟨by decide,
   (create_status_defaults_to_pending ⟨[], 1, 0⟩ ⟨[], 1, 0⟩
      { content_id := some 3 } []).2.2.1 (by decide)⟩

/-- C9: a successful `fetchScheduledContent` stores into the mirrored
list every row of the table, with no user filter: in the first hook
variant the stored list is a permutation of the table sorted ascending by
`scheduled_at`, in the second variant a permutation sorted descending by
`created_at`. -/
theorem fetch_stores_all_rows_ordered (tbl prev prev2 : List ScheduledContent) :
    ((UseScheduledContent.fetchScheduledContentOp prev
        (.ok (UseScheduledContent.fetchQuery tbl))).1).Perm tbl ∧
    List.Sorted schedAtLe
      ((UseScheduledContent.fetchScheduledContentOp prev
        (.ok (UseScheduledContent.fetchQuery tbl))).1) ∧
    ((UseScheduledContentV2.fetchScheduledContentOp prev2
        (.ok (UseScheduledContentV2.fetchQuery tbl))).1).Perm tbl ∧
    List.Sorted createdAtGe
      ((UseScheduledContentV2.fetchScheduledContentOp prev2
        (.ok (UseScheduledContentV2.fetchQuery tbl))).1) := by
  refine ⟨?_, ?_, ?_, ?_⟩
  · exact List.perm_insertionSort schedAtLe tbl
  · exact List.sorted_insertionSort schedAtLe tbl
  · exact List.perm_insertionSort createdAtGe tbl
  · exact List.sorted_insertionSort createdAtGe tbl

/-- C7: when the remote call of any hook operation fails, the mirrored
local list/map state is unchanged and exactly one user-visible error
notification is raised (the `fetchContentSchedules` case needs a
non-empty id list, since with an empty list no remote call is made). -/
theorem hook_error_atomicity (prev : List ScheduledContent) (pm : UseContentSchedules.ScheduleMap)
    (msg : String) (id sid : Nat) (newAt : Int) (cid : Int) (ids : List Int)
    (hids : ids ≠ []) :
    (UseScheduledContent.fetchScheduledContentOp prev (.err msg)).1 = prev ∧
    destructiveCount (UseScheduledContent.fetchScheduledContentOp prev (.err msg)).2 = 1 ∧
    (UseScheduledContent.scheduleContentOp prev (.err msg)).1 = prev ∧
    destructiveCount (UseScheduledContent.scheduleContentOp prev (.err msg)).2 = 1 ∧
    (UseScheduledContent.scheduleMultipleContentOp prev (.err msg)).1 = prev ∧
    destructiveCount (UseScheduledContent.scheduleMultipleContentOp prev (.err msg)).2 = 1 ∧
    (UseScheduledContent.updateScheduledContentOp prev id (.err msg)).1 = prev ∧
    destructiveCount (UseScheduledContent.updateScheduledContentOp prev id (.err msg)).2 = 1 ∧
    (UseScheduledContent.deleteScheduledContentOp prev id (.err msg)).1 = prev ∧
    destructiveCount (UseScheduledContent.deleteScheduledContentOp prev id (.err msg)).2 = 1 ∧
    (UseScheduledContentV2.fetchScheduledContentOp prev (.err msg)).1 = prev ∧
    destructiveCount (UseScheduledContentV2.fetchScheduledContentOp prev (.err msg)).2 = 1 ∧
    (UseScheduledContentV2.scheduleContentOp prev (.err msg)).1 = prev ∧
    destructiveCount (UseScheduledContentV2.scheduleContentOp prev (.err msg)).2 = 1 ∧
    (UseContentSchedules.fetchContentSchedulesOp pm ids (.err msg)).1 = pm ∧
    destructiveCount (UseContentSchedules.fetchContentSchedulesOp pm ids (.err msg)).2 = 1 ∧
    (UseContentSchedules.updateScheduleOp pm sid newAt (.err msg)).1 = pm ∧
    destructiveCount (UseContentSchedules.updateScheduleOp pm sid newAt (.err msg)).2 = 1 ∧
    (UseContentSchedules.deleteScheduleOp pm sid cid (.err msg)).1 = pm ∧
    destructiveCount (UseContentSchedules.deleteScheduleOp pm sid cid (.err msg)).2 = 1 := by
  refine ⟨rfl, rfl, rfl, rfl, rfl, rfl, rfl, rfl, rfl, rfl, rfl, rfl, rfl, rfl, ?_, ?_, rfl,
    rfl, rfl, rfl⟩ <;>
    simp [UseContentSchedules.fetchContentSchedulesOp, hids, destructiveCount, errToast]

/-- C7 witness: error atomicity at a concrete state. -/
theorem hook_error_atomicity_witness :
    ([(3, UseContentSchedules.emptyInfo 3)] : UseContentSchedules.ScheduleMap) =
      [(3, UseContentSchedules.emptyInfo 3)] ∧
    ([7] : List Int) ≠ [] ∧
    (UseScheduledContent.fetchScheduledContentOp [] (.err "boom")).1 = [] ∧
    (UseContentSchedules.fetchContentSchedulesOp [(3, UseContentSchedules.emptyInfo 3)] [7]
        (.err "boom")).1 = [(3, UseContentSchedules.emptyInfo 3)] :=
  ⟨rfl, by decide,
   (hook_error_atomicity [] [(3, UseContentSchedules.emptyInfo 3)] "boom" 1 1 0 0 [7]
      (by decide)).1,
   (hook_error_atomicity [] [(3, UseContentSchedules.emptyInfo 3)] "boom" 1 1 0 0 [7]
      (by decide)).2.2.2.2.2.2.2.2.2.2.2.2.2.2.1⟩

/-- C5: a successful edit patches exactly the row with the edited id.
With the patch `{ scheduled_at }` sent by `updateSchedule` and the
scheduled-posts edit dialog only `scheduled_at` changes, and with the
patch `{ scheduled_at, status: 'pending' }` sent by the inline editor
only `scheduled_at` and `status` change; `id`, `created_at`, `user_id`,
`content_id` and `posted_at` of the edited row are unchanged, and every
row with a different id is unchanged. -/
theorem update_changes_only_scheduled_at (tbl : List ScheduledContent)
    (id : Nat) (v : Int) :
    (updateRows tbl id { scheduled_at := some v }).length = tbl.length ∧
    (∀ r ∈ tbl, r.id ≠ id → r ∈ updateRows tbl id { scheduled_at := some v }) ∧
    (∀ r ∈ tbl, r.id ≠ id →
      r ∈ updateRows tbl id { scheduled_at := some v, status := some "pending" }) ∧
    (∀ r' ∈ updateRows tbl id { scheduled_at := some v }, ∃ r ∈ tbl,
      r'.id = r.id ∧ r'.created_at = r.created_at ∧ r'.user_id = r.user_id ∧
      r'.content_id = r.content_id ∧ r'.posted_at = r.posted_at ∧
      (r.id = id → r'.scheduled_at = some v ∧ r'.status = r.status) ∧
      (r.id ≠ id → r' = r)) ∧
    (∀ r' ∈ updateRows tbl id { scheduled_at := some v, status := some "pending" },
      ∃ r ∈ tbl,
      r'.id = r.id ∧ r'.created_at = r.created_at ∧ r'.user_id = r.user_id ∧
      r'.content_id = r.content_id ∧ r'.posted_at = r.posted_at ∧
      (r.id = id → r'.scheduled_at = some v ∧ r'.status = some "pending") ∧
      (r.id ≠ id → r' = r)) := by
  refine ⟨by simp [updateRows], ?_, ?_, ?_, ?_⟩
  · intro r hr hne
    exact List.mem_map.2 ⟨r, hr, by simp [hne]⟩
  · intro r hr hne
    exact List.mem_map.2 ⟨r, hr, by simp [hne]⟩
  · intro r' hr'
    obtain ⟨r, hr, hEq⟩ := List.mem_map.1 hr'
    refine ⟨r, hr, ?_⟩
    by_cases h : r.id = id
    · subst hEq
      simp [h, applyUpdate, patchField]
    · subst hEq
      simp [h]
  · intro r' hr'
    obtain ⟨r, hr, hEq⟩ := List.mem_map.1 hr'
    refine ⟨r, hr, ?_⟩
    by_cases h : r.id = id
    · subst hEq
      simp [h, applyUpdate, patchField]
    · subst hEq
      simp [h]

/-- C5 witness: the frame effect evaluated on a concrete two-row table. -/
theorem update_changes_only_scheduled_at_witness :
    (updateRows
        [⟨1, 0, some 1, some 10, some "pending", some 50, none⟩,
         ⟨2, 0, some 1, some 11, some "posted", some 60, some 61⟩] 1
        { scheduled_at := some 99 }).length =
      ([⟨1, 0, some 1, some 10, some "pending", some 50, none⟩,
        ⟨2, 0, some 1, some 11, some "posted", some 60, some 61⟩] :
        List ScheduledContent).length ∧
    updateRows
        [⟨1, 0, some 1, some 10, some "pending", some 50, none⟩,
         ⟨2, 0, some 1, some 11, some "posted", some 60, some 61⟩] 1
        { scheduled_at := some 99 } =
      [⟨1, 0, some 1, some 10, some "pending", some 99, none⟩,
       ⟨2, 0, some 1, some 11, some "posted", some 60, some 61⟩] :=
  ⟨(update_changes_only_scheduled_at
      [⟨1, 0, some 1, some 10, some "pending", some 50, none⟩,
       ⟨2, 0, some 1, some 11, some "posted", some 60, some 61⟩] 1 99).1,
   by decide⟩

namespace UseContentSchedules

/-- Elements of `mapSet m k v` are either elements of `m` with a key
other than `k`, or the new binding `(k, v)`. -/
theorem mem_mapSet_elim {m : ScheduleMap} {k : Int} {v : ContentScheduleInfo}
    {p : Int × ContentScheduleInfo} (hp : p ∈ mapSet m k v) :
    (p ∈ m ∧ p.1 ≠ k) ∨ p = (k, v) := by
  unfold mapSet at hp
  by_cases h : m.any (fun q => q.1 = k)
  · rw [if_pos h] at hp
    obtain ⟨q, hq, hEq⟩ := List.mem_map.1 hp
    by_cases hqk : q.1 = k
    · right
      rw [if_pos hqk] at hEq
      exact hEq.symm
    · left
      rw [if_neg hqk] at hEq
      subst hEq
      exact ⟨hq, hqk⟩
  · rw [if_neg h] at hp
    rcases List.mem_append.1 hp with hm | hkv
    · left
      refine ⟨hm, ?_⟩
      intro hk
      exact h (List.any_eq_true.2 ⟨p, hm, by simp [hk]⟩)
    · right
      simpa using hkv

/-- A binding whose key differs from `k` survives `mapSet m k v`
unchanged. -/
theorem mem_mapSet_of_ne {m : ScheduleMap} {k : Int} {v : ContentScheduleInfo}
    {p : Int × ContentScheduleInfo} (hp : p ∈ m) (hne : p.1 ≠ k) :
    p ∈ mapSet m k v := by
  unfold mapSet
  by_cases h : m.any (fun q => q.1 = k)
  · rw [if_pos h]
    exact List.mem_map.2 ⟨p, hp, by rw [if_neg hne]⟩
  · rw [if_neg h]
    exact List.mem_append.2 (Or.inl hp)

/-- When `mapGet m k` misses, no binding of `m` has key `k`. -/
theorem key_ne_of_mapGet_none {m : ScheduleMap} {k : Int}
    (h : mapGet m k = none) : ∀ p ∈ m, p.1 ≠ k := by
  intro p hp
  unfold mapGet at h
  rw [Option.map_eq_none'] at h
  have := List.find?_eq_none.1 h p hp
  simpa using this

/-- When `mapGet m k` returns `info`, some binding of `m` carries it. -/
theorem mapGet_some_mem {m : ScheduleMap} {k : Int} {info : ContentScheduleInfo}
    (h : mapGet m k = some info) : ∃ p ∈ m, p.2 = info := by
  unfold mapGet at h
  rw [Option.map_eq_some'] at h
  obtain ⟨p, hfind, hEq⟩ := h
  exact ⟨p, List.mem_of_find?_eq_some hfind, hEq⟩

end UseContentSchedules

/-- C6: a successful delete removes the row with the deleted id from the
remote table and from the mirrored local state, leaving everything else
in place: in `deleteScheduledContent` no remaining remote row or local
item has that id and every other one is kept, and in `deleteSchedule`
(which is told the schedule's content id, and under the hypothesis that
no other map entry lists that schedule id) no entry of the updated map
still lists the schedule, while entries at other keys are unchanged. -/
theorem delete_removes_row (tbl prev : List ScheduledContent) (id : Nat)
    (m : UseContentSchedules.ScheduleMap) (cid : Int) (sid : Nat)
    (hOther : ∀ p ∈ m, p.1 ≠ cid → ∀ e ∈ p.2.schedules, e.id ≠ sid) :
    (∀ r ∈ deleteRows tbl id, r.id ≠ id) ∧
    (∀ r ∈ tbl, r.id ≠ id → r ∈ deleteRows tbl id) ∧
    (∀ it ∈ (UseScheduledContent.deleteScheduledContentOp prev id (.ok ())).1,
      it.id ≠ id) ∧
    (∀ it ∈ prev, it.id ≠ id →
      it ∈ (UseScheduledContent.deleteScheduledContentOp prev id (.ok ())).1) ∧
    (∀ p ∈ (UseContentSchedules.deleteScheduleOp m sid cid (.ok ())).1,
      ∀ e ∈ p.2.schedules, e.id ≠ sid) ∧
    (∀ p ∈ m, p.1 ≠ cid →
      p ∈ (UseContentSchedules.deleteScheduleOp m sid cid (.ok ())).1) := by
  refine ⟨?_, ?_, ?_, ?_, ?_, ?_⟩
  · intro r hr
    have := (List.mem_filter.1 hr).2
    simpa using this
  · intro r hr hne
    exact List.mem_filter.2 ⟨hr, by simpa using hne⟩
  · intro it hit
    have := (List.mem_filter.1 hit).2
    simpa using this
  · intro it hit hne
    exact List.mem_filter.2 ⟨hit, by simpa using hne⟩
  · intro p hp e he
    simp only [UseContentSchedules.deleteScheduleOp] at hp
    unfold UseContentSchedules.deleteScheduleLocal at hp
    rcases hget : UseContentSchedules.mapGet m cid with _ | info
    · rw [hget] at hp
      exact hOther p hp (UseContentSchedules.key_ne_of_mapGet_none hget p hp) e he
    · rw [hget] at hp
      rcases UseContentSchedules.mem_mapSet_elim hp with ⟨hm, hne⟩ | hEq
      · exact hOther p hm hne e he
      · subst hEq
        simp only at he
        have := (List.mem_filter.1 he).2
        simpa using this
  · intro p hp hne
    simp only [UseContentSchedules.deleteScheduleOp]
    unfold UseContentSchedules.deleteScheduleLocal
    rcases hget : UseContentSchedules.mapGet m cid with _ | info
    · exact hp
    · exact UseContentSchedules.mem_mapSet_of_ne hp hne

/-- C6 witness: deleting schedule 5 of content 1 from a concrete state. -/
theorem delete_removes_row_witness :
    (∀ p ∈ ([(1, ⟨1, [⟨5, 10, "pending", none⟩], true, some 10⟩),
             (2, ⟨2, [⟨6, 20, "pending", none⟩], true, some 20⟩)] :
        UseContentSchedules.ScheduleMap), p.1 ≠ 1 →
      ∀ e ∈ p.2.schedules, e.id ≠ 5) ∧
    (UseContentSchedules.deleteScheduleOp
        [(1, ⟨1, [⟨5, 10, "pending", none⟩], true, some 10⟩),
         (2, ⟨2, [⟨6, 20, "pending", none⟩], true, some 20⟩)] 5 1 (.ok ())).1 =
      [(1, ⟨1, [], false, none⟩),
       (2, ⟨2, [⟨6, 20, "pending", none⟩], true, some 20⟩)] ∧
    (∀ p ∈ (UseContentSchedules.deleteScheduleOp
        [(1, ⟨1, [⟨5, 10, "pending", none⟩], true, some 10⟩),
         (2, ⟨2, [⟨6, 20, "pending", none⟩], true, some 20⟩)] 5 1 (.ok ())).1,
      ∀ e ∈ p.2.schedules, e.id ≠ 5) :=
  ⟨by decide, by decide,
   (delete_removes_row [] [] 0
      [(1, ⟨1, [⟨5, 10, "pending", none⟩], true, some 10⟩),
       (2, ⟨2, [⟨6, 20, "pending", none⟩], true, some 20⟩)] 1 5
      (by decide)).2.2.2.2.1⟩

/-- C1 counterexample: the multi-item create dialog submits a
`scheduled_at` that is not after the current time.  In a UTC runtime
(offset 0), with one selected item scheduled for the current day
(local day 0) at minute 1, all fields present and a logged-in user,
`handleSubmit` issues the remote insert with `scheduled_at = 1` even
though the current time is minute 720 of that day: the handler validates
only the presence of date, time and platform, never their relation to the
current time. -/
theorem dialog_submits_past_scheduled_at :
    ScheduleContentDialog.handleSubmit [⟨1, some 0, some 1, "linkedin"⟩] (some ⟨1⟩) 0
      = some [{ user_id := some 1, content_id := some 1, scheduled_at := some 1,
                status := some "pending" }] ∧
    ¬ ((720 : Int) < 1) := by
  decide

/-- C1 (amended): the content-schedule modal and the scheduled-posts edit
dialog submit a `scheduled_at` strictly after the current time; the
inline editor (`ScheduleDisplay`) validates the displayed IST wall-clock
value rather than the stored UTC value, so it only guarantees a
`scheduled_at` later than 5 hours 30 minutes before the current time;
the multi-item create dialog checks no relation to the current time at
all (see the counterexample). -/
theorem edit_paths_submit_future_scheduled_at
    (ed : Option ContentScheduleModal.EditingSchedule) (tzOff now : Int)
    (sid : Nat) (t : Int)
    (ep : Option Nat) (edt : Option Int) (tz2 now2 : Int) (pid : Nat)
    (u : ScheduledContentUpdate)
    (sdt : Option Int) (sc : Option ScheduleDisplay.ScheduledContentRecord)
    (cid tz3 now3 : Int) (w : ScheduleDisplay.RemoteWrite)
    (h1 : ContentScheduleModal.handleSaveSchedule ed tzOff now = some (sid, t))
    (h2 : ScheduledPostsTab.handleSaveSchedule ep edt tz2 now2 = some (pid, u))
    (h3 : ScheduleDisplay.handleUpdateSchedule sdt sc cid tz3 now3 = some w) :
    now < t ∧
    (∀ v, u.scheduled_at = some v → now2 < v) ∧
    (∀ v, ScheduleDisplay.scheduledAtOfWrite w = some v → now3 - 330 < v) := by
  refine ⟨?_, ?_, ?_⟩
  · unfold ContentScheduleModal.handleSaveSchedule at h1
    rcases ed with _ | e
    · simp at h1
    · dsimp only at h1
      rcases hd : e.day with _ | d
      · rw [hd] at h1
        simp at h1
      · rw [hd] at h1
        dsimp only at h1
        split at h1
        · simp at h1
        · rename_i hle
          simp only [Option.some.injEq, Prod.mk.injEq] at h1
          obtain ⟨-, rfl⟩ := h1
          omega
  · intro v hv
    unfold ScheduledPostsTab.handleSaveSchedule at h2
    rcases ep with _ | p
    · simp at h2
    · rcases edt with _ | wall
      · simp at h2
      · dsimp only at h2
        split at h2
        · simp at h2
        · rename_i hle
          simp only [Option.some.injEq, Prod.mk.injEq] at h2
          obtain ⟨-, rfl⟩ := h2
          obtain rfl : wall - tz2 = v := Option.some.inj hv
          omega
  · intro v hv
    unfold ScheduleDisplay.handleUpdateSchedule at h3
    rcases sdt with _ | wall
    · simp at h3
    · dsimp only at h3
      split at h3
      · rename_i hval
        have hlt : now3 < wall - tz3 := by
          simpa [ScheduleDisplay.validateDateTime] using hval
        rcases sc with _ | r
        · simp only at h3
          obtain rfl := Option.some.inj h3
          obtain rfl : wall - tz3 - 330 = v := Option.some.inj hv
          omega
        · simp only at h3
          obtain rfl := Option.some.inj h3
          obtain rfl : wall - tz3 - 330 = v := Option.some.inj hv
          omega
      · simp at h3

/-- C1 witness: concrete saves through the three edit paths. -/
theorem edit_paths_submit_future_scheduled_at_witness :
    ContentScheduleModal.handleSaveSchedule (some ⟨5, some 0, 600⟩) 0 100
      = some (5, 600) ∧
    ScheduledPostsTab.handleSaveSchedule (some 7) (some 500) 0 100
      = some (7, { scheduled_at := some 500 }) ∧
    ScheduleDisplay.handleUpdateSchedule (some 800) none 3 0 100
      = some (.insert { user_id := some 1, content_id := some 3,
                        status := some "pending", scheduled_at := some 470 }) ∧
    ((100 : Int) < 600 ∧
      (∀ v, ({ scheduled_at := some 500 } : ScheduledContentUpdate).scheduled_at
          = some v → (100 : Int) < v) ∧
      (∀ v, ScheduleDisplay.scheduledAtOfWrite
          (.insert { user_id := some 1, content_id := some 3,
                     status := some "pending", scheduled_at := some 470 })
          = some v → (100 : Int) - 330 < v)) :=
  ⟨by decide, by decide, by decide,
   edit_paths_submit_future_scheduled_at (some ⟨5, some 0, 600⟩) 0 100 5 600
     (some 7) (some 500) 0 100 7 { scheduled_at := some 500 }
     (some 800) none 3 0 100
     (.insert { user_id := some 1, content_id := some 3,
                status := some "pending", scheduled_at := some 470 })
     (by decide) (by decide) (by decide)⟩

/-- C3 counterexample: a submission of the multi-item dialog whose
selected date/time is in the past but whose fields are all present is not
blocked: with the current time at minute 600 of local day 0, a schedule
for day 0 minute 30 (all of date, time and platform present) makes
`handleSubmit` issue the remote insert instead of returning, because the
handler validates only field presence. -/
theorem dialog_not_blocked_on_past_datetime :
    ScheduleContentDialog.handleSubmit [⟨2, some 0, some 30, "twitter"⟩] (some ⟨4⟩) 0
      = some [{ user_id := some 4, content_id := some 2, scheduled_at := some 30,
                status := some "pending" }] ∧
    ¬ ((600 : Int) < 30) := by
  decide

/-- C3 (amended): a missing date, time or platform (or no logged-in user)
blocks a dialog submission before any remote call, and in the inline
editor a missing datetime or one that fails `validateDateTime` blocks the
submission before any remote call with the failure reported inline; the
multi-item dialog, however, does not re-check the past-date condition at
submit time (see the counterexample), where only the date-picker UI
discourages past dates. -/
theorem validation_blocks_before_remote_call
    (schedules : List ScheduleContentDialog.ContentSchedule)
    (cu : Option ScheduleContentDialog.UserRec) (tz : Int)
    (s : ScheduleContentDialog.ContentSchedule)
    (sc : Option ScheduleDisplay.ScheduledContentRecord)
    (cid tz3 now3 wall : Int)
    (hs : s ∈ schedules)
    (hmiss : s.day = none ∨ s.time = none ∨ s.platform = "")
    (hpast : wall - tz3 ≤ now3) :
    ScheduleContentDialog.handleSubmit schedules cu tz = none ∧
    ScheduleContentDialog.handleSubmit schedules none tz = none ∧
    ScheduleDisplay.handleUpdateSchedule none sc cid tz3 now3 = none ∧
    ScheduleDisplay.handleUpdateSchedule (some wall) sc cid tz3 now3 = none := by
  have hany : schedules.any
      (fun q => q.day = none || q.time = none || q.platform = "") = true := by
    refine List.any_eq_true.2 ⟨s, hs, ?_⟩
    rcases hmiss with h | h | h <;> simp [h]
  refine ⟨?_, ?_, rfl, ?_⟩
  · unfold ScheduleContentDialog.handleSubmit
    rw [if_pos hany]
  · unfold ScheduleContentDialog.handleSubmit
    split
    · rfl
    · rfl
  · unfold ScheduleDisplay.handleUpdateSchedule
    dsimp only
    rw [if_neg]
    simp only [ScheduleDisplay.validateDateTime, decide_eq_true_eq, not_lt]
    exact hpast

/-- C3 witness: a concrete blocked submission (missing date in the dialog,
past datetime in the inline editor). -/
theorem validation_blocks_before_remote_call_witness :
    (⟨9, none, some 60, "linkedin"⟩ : ScheduleContentDialog.ContentSchedule) ∈
      [(⟨9, none, some 60, "linkedin"⟩ : ScheduleContentDialog.ContentSchedule)] ∧
    ((⟨9, none, some 60, "linkedin"⟩ : ScheduleContentDialog.ContentSchedule).day = none ∨
      (⟨9, none, some 60, "linkedin"⟩ : ScheduleContentDialog.ContentSchedule).time = none ∨
      (⟨9, none, some 60, "linkedin"⟩ : ScheduleContentDialog.ContentSchedule).platform = "") ∧
    ((50 : Int) - 0 ≤ 100) ∧
    ScheduleContentDialog.handleSubmit
      [⟨9, none, some 60, "linkedin"⟩] (some ⟨4⟩) 0 = none ∧
    ScheduleDisplay.handleUpdateSchedule (some 50) none 3 0 100 = none :=
  ⟨by decide, by decide, by decide,
   (validation_blocks_before_remote_call [⟨9, none, some 60, "linkedin"⟩] (some ⟨4⟩) 0
      ⟨9, none, some 60, "linkedin"⟩ none 3 0 100 50
      (by decide) (by decide) (by decide)).1,
   (validation_blocks_before_remote_call [⟨9, none, some 60, "linkedin"⟩] (some ⟨4⟩) 0
      ⟨9, none, some 60, "linkedin"⟩ none 3 0 100 50
      (by decide) (by decide) (by decide)).2.2.2⟩

/-- C4: when `handleSubmit` of the schedule dialog goes through with a
list of selected content items whose ids are pairwise distinct (one form
entry per item), `scheduleMultipleContent` inserts exactly one new row
per selected item into `scheduled_content`, and the inserted rows
reference the selected items' content ids, pairwise distinct. -/
theorem scheduleMultiple_inserts_n_distinct_rows
    (selected : List ScheduleContentDialog.Content)
    (schedules : List ScheduleContentDialog.ContentSchedule)
    (u : ScheduleContentDialog.UserRec) (tzOff : Int) (st : TableState)
    (payload : List ScheduledContentInsert)
    (hids : schedules.map (fun s => s.contentId) = selected.map (fun c => c.id))
    (hnodup : (selected.map (fun c => c.id)).Nodup)
    (hok : ScheduleContentDialog.handleSubmit schedules (some u) tzOff = some payload) :
    payload.length = selected.length ∧
    (insertRows st (UseScheduledContent.scheduleMultiplePayload payload)).1.rows.length
      = st.rows.length + selected.length ∧
    ((insertRows st (UseScheduledContent.scheduleMultiplePayload payload)).2.map
        (fun r => r.content_id)) = selected.map (fun c => some c.id) ∧
    ((insertRows st (UseScheduledContent.scheduleMultiplePayload payload)).2.map
        (fun r => r.content_id)).Nodup := by
  unfold ScheduleContentDialog.handleSubmit at hok
  split at hok
  · simp at hok
  · dsimp only at hok
    obtain rfl := Option.some.inj hok
    obtain ⟨h1, h2, -, h4⟩ :=
      insertRows_fields st (UseScheduledContent.scheduleMultiplePayload
        (schedules.map (fun s =>
          { user_id := some u.id, content_id := some s.contentId,
            scheduled_at := some (ScheduleContentDialog.combineDayTime
              (s.day.getD 0) (s.time.getD 0) - tzOff),
            status := some "pending" })))
    have hlen : schedules.length = selected.length := by
      have := congrArg List.length hids
      simpa using this
    have hcontent :
        (UseScheduledContent.scheduleMultiplePayload
          (schedules.map (fun s =>
            { user_id := some u.id, content_id := some s.contentId,
              scheduled_at := some (ScheduleContentDialog.combineDayTime
                (s.day.getD 0) (s.time.getD 0) - tzOff),
              status := some "pending" }))).map (fun it => it.content_id)
          = selected.map (fun c => some c.id) := by
      have e1 :
          (UseScheduledContent.scheduleMultiplePayload
            (schedules.map (fun s =>
              { user_id := some u.id, content_id := some s.contentId,
                scheduled_at := some (ScheduleContentDialog.combineDayTime
                  (s.day.getD 0) (s.time.getD 0) - tzOff),
                status := some "pending" }))).map (fun it => it.content_id)
            = (schedules.map (fun s => s.contentId)).map some := by
        simp [UseScheduledContent.scheduleMultiplePayload, Function.comp_def]
      rw [e1, hids]
      simp [Function.comp_def]
    refine ⟨by simpa using hlen, ?_, ?_, ?_⟩
    · rw [congrArg List.length h1, List.length_append, h2]
      simp [UseScheduledContent.scheduleMultiplePayload, hlen]
    · rw [h4, hcontent]
    · rw [h4, hcontent]
      have : selected.map (fun c => some c.id)
          = (selected.map (fun c => c.id)).map some := by
        simp [Function.comp_def]
      rw [this]
      exact hnodup.map (Option.some_injective Int)

/-- C4 witness: two selected items with distinct ids yield exactly two
rows with the two distinct content ids. -/
theorem scheduleMultiple_inserts_n_distinct_rows_witness :
    ([⟨1, some 0, some 60, "linkedin"⟩, ⟨2, some 1, some 120, "twitter"⟩] :
        List ScheduleContentDialog.ContentSchedule).map (fun s => s.contentId)
      = ([⟨1, none, none, none⟩, ⟨2, none, none, none⟩] :
        List ScheduleContentDialog.Content).map (fun c => c.id) ∧
    (([⟨1, none, none, none⟩, ⟨2, none, none, none⟩] :
        List ScheduleContentDialog.Content).map (fun c => c.id)).Nodup ∧
    ScheduleContentDialog.handleSubmit
      [⟨1, some 0, some 60, "linkedin"⟩, ⟨2, some 1, some 120, "twitter"⟩]
      (some ⟨9⟩) 0
      = some [{ user_id := some 9, content_id := some 1, scheduled_at := some 60,
                status := some "pending" },
              { user_id := some 9, content_id := some 2, scheduled_at := some 1560,
                status := some "pending" }] ∧
    ((insertRows ⟨[], 1, 0⟩ (UseScheduledContent.scheduleMultiplePayload
        [{ user_id := some 9, content_id := some 1, scheduled_at := some 60,
           status := some "pending" },
         { user_id := some 9, content_id := some 2, scheduled_at := some 1560,
           status := some "pending" }])).1.rows.length
      = ([] : List ScheduledContent).length + 2) :=
  ⟨by decide, by decide, by decide,
   (scheduleMultiple_inserts_n_distinct_rows
      [⟨1, none, none, none⟩, ⟨2, none, none, none⟩]
      [⟨1, some 0, some 60, "linkedin"⟩, ⟨2, some 1, some 120, "twitter"⟩]
      ⟨9⟩ 0 ⟨[], 1, 0⟩
      [{ user_id := some 9, content_id := some 1, scheduled_at := some 60,
         status := some "pending" },
       { user_id := some 9, content_id := some 2, scheduled_at := some 1560,
         status := some "pending" }]
      (by decide) (by decide) (by decide)).2.1⟩

namespace UseContentSchedules

/-- Every binding of `initialMap` is an empty entry at its own key. -/
theorem initialMap_mem {ids : List Int} :
    ∀ p ∈ initialMap ids, ∃ c, p = (c, emptyInfo c) := by
  unfold initialMap
  suffices h : ∀ (ids : List Int) (m0 : ScheduleMap),
      (∀ p ∈ m0, ∃ c, p = (c, emptyInfo c)) →
      ∀ p ∈ ids.foldl (fun m cid => mapSet m cid (emptyInfo cid)) m0,
        ∃ c, p = (c, emptyInfo c) by
    exact h ids [] (by simp)
  intro ids
  induction ids with
  | nil => intro m0 hm0 p hp; exact hm0 p hp
  | cons cid rest ih =>
    intro m0 hm0 p hp
    rw [List.foldl_cons] at hp
    refine ih (mapSet m0 cid (emptyInfo cid)) ?_ p hp
    intro q hq
    rcases mem_mapSet_elim hq with ⟨hqm, -⟩ | rfl
    · exact hm0 q hqm
    · exact ⟨cid, rfl⟩

/-- The empty entry satisfies the per-entry invariant. -/
theorem emptyInfo_inv (cid : Int) : infoInv (emptyInfo cid) := by
  refine ⟨by simp [emptyInfo], by simp [emptyInfo], by simp [emptyInfo]⟩

/-- Folding one query row into the map preserves the strengthened
invariant, consuming the head of the remaining (sorted) row list. -/
theorem addScheduleRow_strong {r : ScheduledContent} {rest : List ScheduledContent}
    {m : ScheduleMap}
    (hr : ∀ r' ∈ rest, schedAtLe r r')
    (hm : ∀ p ∈ m, infoInv p.2 ∧ pendingBound (r :: rest) p.2) :
    ∀ p ∈ addScheduleRow m r, infoInv p.2 ∧ pendingBound rest p.2 := by
  have weaken : ∀ info, pendingBound (r :: rest) info → pendingBound rest info := by
    intro info h e he r' hr' t ht
    exact h e he r' (List.mem_cons_of_mem r hr') t ht
  intro p hp
  unfold addScheduleRow at hp
  rcases hc : r.content_id with _ | cid
  · rw [hc] at hp
    exact ⟨(hm p hp).1, weaken _ (hm p hp).2⟩
  · rw [hc] at hp
    rcases hs : r.scheduled_at with _ | t
    · rw [hs] at hp
      exact ⟨(hm p hp).1, weaken _ (hm p hp).2⟩
    · rw [hs] at hp
      dsimp only at hp
      rcases hg : mapGet m cid with _ | info
      · rw [hg] at hp
        exact ⟨(hm p hp).1, weaken _ (hm p hp).2⟩
      · rw [hg] at hp
        rcases mem_mapSet_elim hp with ⟨hpm, -⟩ | rfl
        · exact ⟨(hm p hpm).1, weaken _ (hm p hpm).2⟩
        · obtain ⟨q, hq, hq2⟩ := mapGet_some_mem hg
          obtain ⟨hinv, hbound⟩ := hm q hq
          rw [hq2] at hinv hbound
          refine ⟨⟨by simp, ?_, ?_⟩, ?_⟩
          · refine List.pairwise_append.2 ⟨hinv.2.1, List.pairwise_singleton _ _, ?_⟩
            intro a ha b hb
            obtain rfl : b = entryOfRow r t := by simpa using hb
            exact hbound a ha r (List.mem_cons_self r rest) t hs
          · rcases hsch : info.schedules with _ | ⟨x, xs⟩
            · have hnone : info.nextSchedule = none := by
                rw [hinv.2.2, hsch]
                rfl
              simp [hsch, hnone, entryOfRow]
            · have hsome : info.nextSchedule = some x.scheduled_at := by
                rw [hinv.2.2, hsch]
                rfl
              simp [hsch, hsome]
          · intro e he r' hr' t' ht'
            simp only at he
            rcases List.mem_append.1 he with hold | hnew
            · exact hbound e hold r' (List.mem_cons_of_mem r hr') t' ht'
            · obtain rfl : e = entryOfRow r t := by simpa using hnew
              have := hr r' hr'
              unfold schedAtLe at this
              rw [hs, ht'] at this
              exact this

/-- Folding a sorted row list into a map whose entries satisfy the
strengthened invariant yields a map satisfying the per-entry invariant. -/
theorem foldl_addScheduleRow_inv (data : List ScheduledContent) :
    ∀ m : ScheduleMap, List.Sorted schedAtLe data →
      (∀ p ∈ m, infoInv p.2 ∧ pendingBound data p.2) →
      ∀ p ∈ data.foldl addScheduleRow m, infoInv p.2 := by
  induction data with
  | nil =>
    intro m _ hm p hp
    exact (hm p hp).1
  | cons r rest ih =>
    intro m hd hm p hp
    rw [List.foldl_cons] at hp
    have hpair := List.pairwise_cons.1 hd
    exact ih (addScheduleRow m r) hpair.2 (addScheduleRow_strong hpair.1 hm) p hp

/-- A successful `fetchContentSchedules` leaves a map satisfying the
invariant (an empty id list keeps the previous, invariant, map). -/
theorem fetch_establishes_inv (prev : ScheduleMap) (ids : List Int)
    (tbl : List ScheduledContent) (now : Int) (hprev : mapInv prev) :
    mapInv (fetchContentSchedulesOp prev ids (.ok (fetchQuery tbl ids now))).1 := by
  unfold fetchContentSchedulesOp
  by_cases hids : ids = []
  · rw [if_pos hids]
    exact hprev
  · rw [if_neg hids]
    dsimp only
    intro p hp
    refine foldl_addScheduleRow_inv _ (initialMap ids)
      (List.sorted_insertionSort _ _) ?_ p hp
    intro q hq
    obtain ⟨c, rfl⟩ := initialMap_mem q hq
    refine ⟨emptyInfo_inv c, ?_⟩
    intro e he
    simp [emptyInfo] at he

/-- A list stays non-empty under `map` followed by `insertionSort`. -/
theorem insertionSort_map_ne_nil_iff (f : ScheduleEntry → ScheduleEntry)
    (l : List ScheduleEntry) :
    List.insertionSort entryLe (l.map f) ≠ [] ↔ l ≠ [] := by
  have hlen : (List.insertionSort entryLe (l.map f)).length = l.length := by
    rw [(List.perm_insertionSort entryLe (l.map f)).length_eq, List.length_map]
  rw [← List.length_pos, ← List.length_pos, hlen]

/-- The success branch of `updateSchedule` preserves the map invariant. -/
theorem update_preserves_inv (m : ScheduleMap) (sid : Nat) (newAt : Int)
    (data : ScheduledContent) (hm : mapInv m) :
    mapInv (updateScheduleLocal m sid newAt data) := by
  unfold updateScheduleLocal
  rcases hc : data.content_id with _ | cid
  · exact hm
  · dsimp only
    rcases hg : mapGet m cid with _ | info
    · exact hm
    · intro p hp
      rcases mem_mapSet_elim hp with ⟨hpm, -⟩ | rfl
      · exact hm p hpm
      · obtain ⟨q, hq, hq2⟩ := mapGet_some_mem hg
        have hinv : infoInv info := hq2 ▸ hm q hq
        refine ⟨?_, List.sorted_insertionSort _ _, rfl⟩
        dsimp only
        rw [hinv.1]
        exact (insertionSort_map_ne_nil_iff _ _).symm

/-- The success branch of `deleteSchedule` preserves the map invariant. -/
theorem delete_preserves_inv (m : ScheduleMap) (sid : Nat) (cid : Int)
    (hm : mapInv m) :
    mapInv (deleteScheduleLocal m sid cid) := by
  unfold deleteScheduleLocal
  rcases hg : mapGet m cid with _ | info
  · exact hm
  · intro p hp
    rcases mem_mapSet_elim hp with ⟨hpm, -⟩ | rfl
    · exact hm p hpm
    · obtain ⟨q, hq, hq2⟩ := mapGet_some_mem hg
      have hinv : infoInv info := hq2 ▸ hm q hq
      refine ⟨?_, hinv.2.1.filter _, rfl⟩
      dsimp only
      rcases hfil : info.schedules.filter (fun s => s.id != sid) with _ | ⟨x, xs⟩ <;>
        simp [hfil]

/-- In an invariant map, `nextSchedule` bounds every schedule of its
entry from below. -/
theorem nextSchedule_is_earliest {m : ScheduleMap} (hm : mapInv m) :
    ∀ p ∈ m, ∀ u, p.2.nextSchedule = some u →
      ∀ e ∈ p.2.schedules, u ≤ e.scheduled_at := by
  intro p hp u hu e he
  obtain ⟨-, hsort, hnext⟩ := hm p hp
  rcases hsch : p.2.schedules with _ | ⟨x, xs⟩
  · rw [hsch] at he
    simp at he
  · rw [hsch] at hnext he
    rw [hnext] at hu
    obtain rfl : x.scheduled_at = u := by simpa using hu
    rw [hsch] at hsort
    rcases List.mem_cons.1 he with rfl | hxs
    · exact le_refl _
    · exact List.rel_of_sorted_cons hsort e hxs

end UseContentSchedules

/-- C10: invariant of the `useContentSchedules` map.  A successful
`fetchContentSchedules` leaves a map in which, for every content id
present, `hasSchedule` holds exactly when the schedules list is
non-empty, the list is sorted ascending by `scheduled_at`, and
`nextSchedule` is the `scheduled_at` of the earliest schedule (`none`
when the list is empty); successful `updateSchedule` and `deleteSchedule`
preserve that invariant; `nextSchedule` is a lower bound of the entry's
schedules; and `getScheduleInfo` on an absent id returns the empty record
with `hasSchedule` false and `nextSchedule` null. -/
theorem contentSchedules_map_invariant
    (prev : UseContentSchedules.ScheduleMap) (contentIds : List Int)
    (tbl : List ScheduledContent) (now : Int)
    (m1 m2 m3 : UseContentSchedules.ScheduleMap) (sid1 sid2 : Nat) (t1 : Int)
    (data : ScheduledContent) (cid2 cid3 : Int)
    (hprev : UseContentSchedules.mapInv prev)
    (hm1 : UseContentSchedules.mapInv m1)
    (hm2 : UseContentSchedules.mapInv m2)
    (habs : UseContentSchedules.mapGet m3 cid3 = none) :
    UseContentSchedules.mapInv
      (UseContentSchedules.fetchContentSchedulesOp prev contentIds
        (.ok (UseContentSchedules.fetchQuery tbl contentIds now))).1 ∧
    UseContentSchedules.mapInv
      (UseContentSchedules.updateScheduleOp m1 sid1 t1 (.ok data)).1 ∧
    UseContentSchedules.mapInv
      (UseContentSchedules.deleteScheduleOp m2 sid2 cid2 (.ok ())).1 ∧
    UseContentSchedules.getScheduleInfo m3 cid3
      = UseContentSchedules.emptyInfo cid3 ∧
    (∀ p ∈ m1, ∀ u, p.2.nextSchedule = some u →
      ∀ e ∈ p.2.schedules, u ≤ e.scheduled_at) := by
  refine ⟨UseContentSchedules.fetch_establishes_inv prev contentIds tbl now hprev,
    UseContentSchedules.update_preserves_inv m1 sid1 t1 data hm1,
    UseContentSchedules.delete_preserves_inv m2 sid2 cid2 hm2, ?_,
    UseContentSchedules.nextSchedule_is_earliest hm1⟩
  unfold UseContentSchedules.getScheduleInfo
  rw [habs]
  rfl

/-- C10 witness: the invariant at a concrete fetch, update and delete. -/
theorem contentSchedules_map_invariant_witness :
    UseContentSchedules.mapInv [] ∧
    UseContentSchedules.mapInv
      [(1, ⟨1, [⟨5, 10, "pending", none⟩], true, some 10⟩)] ∧
    UseContentSchedules.mapGet [] 2 = none ∧
    (UseContentSchedules.mapInv
      (UseContentSchedules.fetchContentSchedulesOp [] [1]
        (.ok (UseContentSchedules.fetchQuery
          [⟨5, 0, none, some 1, some "pending", some 10, none⟩] [1] 0))).1 ∧
     UseContentSchedules.mapInv
      (UseContentSchedules.updateScheduleOp
        [(1, ⟨1, [⟨5, 10, "pending", none⟩], true, some 10⟩)] 5 30
        (.ok ⟨5, 0, none, some 1, some "pending", some 30, none⟩)).1 ∧
     UseContentSchedules.mapInv
      (UseContentSchedules.deleteScheduleOp
        [(1, ⟨1, [⟨5, 10, "pending", none⟩], true, some 10⟩)] 5 1 (.ok ())).1 ∧
     UseContentSchedules.getScheduleInfo [] 2 = UseContentSchedules.emptyInfo 2 ∧
     (∀ p ∈ ([(1, ⟨1, [⟨5, 10, "pending", none⟩], true, some 10⟩)] :
         UseContentSchedules.ScheduleMap), ∀ u, p.2.nextSchedule = some u →
       ∀ e ∈ p.2.schedules, u ≤ e.scheduled_at)) :=
  ⟨by decide, by decide, by decide,
   contentSchedules_map_invariant [] [1]
     [⟨5, 0, none, some 1, some "pending", some 10, none⟩] 0
     [(1, ⟨1, [⟨5, 10, "pending", none⟩], true, some 10⟩)]
     [(1, ⟨1, [⟨5, 10, "pending", none⟩], true, some 10⟩)] [] 5 5 30
     ⟨5, 0, none, some 1, some "pending", some 30, none⟩ 1 2
     (by decide) (by decide) (by decide) (by decide)⟩
